import Mathlib

set_option maxHeartbeats 4000000

/-! Shallow embedding of the checkers rule engine (src/types.ts, services
    module) and the adversarial search engine (src/unnamed/part_000), with
    theorems settling the frozen specification claims.

    Conventions: TypeScript numbers used as board coordinates become `Int`
    (they can go negative before bounds checks); loop counters become `Nat`.
    JavaScript `Map` becomes an association list threaded explicitly through
    the search.  `-Infinity` / `Infinity` alpha-beta bounds become an
    extended-integer type `EInt`. -/

inductive Player where
  | RED
  | WHITE
deriving DecidableEq, BEq, Repr, Fintype

inductive PieceType where
  | PAWN
  | KING
deriving DecidableEq, BEq, Repr, Fintype

inductive CheckersVariant where
  | ENGLISH
  | INTERNATIONAL
  | RUSSIAN
  | BRAZILIAN
  | ITALIAN
  | TURKISH
  | SUICIDE
  | SPANISH
  | POOL
  | CANADIAN
  | THAI
  | CZECH
  | ARMENIAN
  | FRISIAN
  | GOTHIC
  | OLD_GERMAN
deriving DecidableEq, BEq, Repr, Fintype

/-- A board cell coordinate, `{ r, c }` in the source.  `Int` because the
    generator forms out-of-range candidates before bounds checks. -/
structure Pos where
  r : Int
  c : Int
deriving DecidableEq, BEq, Repr

/-- `Piece` from src/types.ts. -/
structure Piece where
  id : String
  player : Player
  type : PieceType
  position : Pos
deriving DecidableEq, BEq, Repr

/-- `Move` from src/types.ts.  The optional `captures` array is modelled as a
    list, `[]` standing for `undefined` (the engine only ever reads it through
    `?.length ?? 0`, `?.filter ?? 0` and a truthiness test, on which the two
    agree).  The optional `path` and `isKinging` fields are never read by the
    engine and are omitted.  `from` and `to` are Lean keywords, hence `fromPos` / `toPos`. -/
structure Move where
  fromPos : Pos
  toPos : Pos
  captures : List Pos
deriving DecidableEq, BEq, Repr

/-- `VariantRules` from src/types.ts. -/
structure VariantRules where
  boardSize : Nat
  pawnCaptureBackwards : Bool
  kingLongRange : Bool
  majorityCaptureRequired : Bool
  qualityCaptureRequired : Bool
  kingCapturePriority : Bool
  pawnCanCaptureKing : Bool
  isOrthogonal : Bool
  isLosingGoal : Bool
  pawnKingTransformationMidJump : Bool
  kingStopsAfterCapture : Bool
  darkSquarePlay : Bool
  removeCapturedImmediately : Bool
  frisianCapturing : Bool
deriving DecidableEq, Repr

/-- The `base` rule-set literal in `getVariantRules`. -/
def baseRules : VariantRules where
  boardSize := 8
  pawnCaptureBackwards := false
  kingLongRange := false
  majorityCaptureRequired := false
  qualityCaptureRequired := false
  kingCapturePriority := false
  pawnCanCaptureKing := true
  isOrthogonal := false
  isLosingGoal := false
  pawnKingTransformationMidJump := false
  kingStopsAfterCapture := false
  darkSquarePlay := true
  removeCapturedImmediately := false
  frisianCapturing := false

/-- `getVariantRules` from the services module. -/
def getVariantRules : CheckersVariant → VariantRules
  | .INTERNATIONAL =>
      { baseRules with boardSize := 10, pawnCaptureBackwards := true, kingLongRange := true, majorityCaptureRequired := true }
  | .RUSSIAN =>
      { baseRules with pawnCaptureBackwards := true, kingLongRange := true, pawnKingTransformationMidJump := true, majorityCaptureRequired := false }
  | .BRAZILIAN =>
      { baseRules with pawnCaptureBackwards := true, kingLongRange := true, majorityCaptureRequired := true }
  | .ITALIAN =>
      { baseRules with majorityCaptureRequired := true, qualityCaptureRequired := true, kingCapturePriority := true, pawnCanCaptureKing := false }
  | .TURKISH =>
      { baseRules with kingLongRange := true, majorityCaptureRequired := true, isOrthogonal := true, darkSquarePlay := false, removeCapturedImmediately := true }
  | .ARMENIAN =>
      { baseRules with kingLongRange := true, majorityCaptureRequired := true, isOrthogonal := true, darkSquarePlay := false, removeCapturedImmediately := true }
  | .SUICIDE =>
      { baseRules with isLosingGoal := true, majorityCaptureRequired := true }
  | .SPANISH =>
      { baseRules with kingLongRange := true, majorityCaptureRequired := true, qualityCaptureRequired := true }
  | .POOL =>
      { baseRules with pawnCaptureBackwards := true, kingLongRange := true, majorityCaptureRequired := true }
  | .CANADIAN =>
      { baseRules with boardSize := 12, pawnCaptureBackwards := true, kingLongRange := true, majorityCaptureRequired := true }
  | .THAI =>
      { baseRules with kingLongRange := true, kingStopsAfterCapture := true, majorityCaptureRequired := true }
  | .CZECH =>
      { baseRules with kingLongRange := true, kingCapturePriority := true }
  | .FRISIAN =>
      { baseRules with boardSize := 10, kingLongRange := true, majorityCaptureRequired := true, frisianCapturing := true, pawnCaptureBackwards := true }
  | .GOTHIC =>
      { baseRules with boardSize := 8, kingLongRange := true, pawnCaptureBackwards := true }
  | .OLD_GERMAN =>
      { baseRules with boardSize := 8, kingLongRange := false, majorityCaptureRequired := true }
  | .ENGLISH => baseRules

/-- A board: row-major grid of optional pieces, `(Piece | null)[][]`. -/
abbrev Board : Type := List (List (Option Piece))

/-- Read `board[r][c]`.  Out-of-range reads yield `none` (the source only
    performs them behind bounds checks, where the two semantics agree). -/
def boardGet (board : Board) (r c : Int) : Option Piece :=
  if 0 ≤ r ∧ 0 ≤ c then (((board.get? r.toNat).getD []).get? c.toNat).getD none
  else none

/-- Write `board[r][c] = p` (functionally). -/
def boardSet (board : Board) (r c : Int) (p : Option Piece) : Board :=
  if 0 ≤ r ∧ 0 ≤ c then
    board.set r.toNat (((board.get? r.toNat).getD []).set c.toNat p)
  else board

/-- `createInitialBoard` from the services module.  The grid is built cell by
    cell; in the all-squares branch the red assignment textually follows the
    white one and therefore wins on (impossible for these sizes) overlaps, and
    in the dark-square branch the white test is an `else if` ahead of red. -/
def createInitialBoard (variant : CheckersVariant) : Board :=
  let rules := getVariantRules variant
  let size := rules.boardSize
  let fillRows : Nat :=
    if variant = CheckersVariant.THAI then 2
    else if size = 12 then 5
    else if size ≥ 10 then 4
    else 3
  (List.range size).map (fun r =>
    (List.range size).map (fun c =>
      if !rules.darkSquarePlay then
        if size - 3 ≤ r ∧ r ≤ size - 2 then
          some { id := "r-" ++ toString r ++ "-" ++ toString c, player := Player.RED, type := PieceType.PAWN, position := ⟨r, c⟩ }
        else if 1 ≤ r ∧ r ≤ 2 then
          some { id := "w-" ++ toString r ++ "-" ++ toString c, player := Player.WHITE, type := PieceType.PAWN, position := ⟨r, c⟩ }
        else none
      else if (r + c) % 2 ≠ 0 then
        if r < fillRows then
          some { id := "w-" ++ toString r ++ "-" ++ toString c, player := Player.WHITE, type := PieceType.PAWN, position := ⟨r, c⟩ }
        else if r ≥ size - fillRows then
          some { id := "r-" ++ toString r ++ "-" ++ toString c, player := Player.RED, type := PieceType.PAWN, position := ⟨r, c⟩ }
        else none
      else none))

/-- `applyMove` from the services module. -/
def applyMove (board : Board) (move : Move) (variant : CheckersVariant) : Board :=
  let rules := getVariantRules variant
  match boardGet board move.fromPos.r move.fromPos.c with
  | none => board
  | some piece =>
    let kingRow : Int := if piece.player = Player.RED then 0 else (rules.boardSize : Int) - 1
    let newPiece : Piece :=
      { piece with position := move.toPos, type := if move.toPos.r = kingRow then PieceType.KING else piece.type }
    let b1 := boardSet board move.toPos.r move.toPos.c (some newPiece)
    let b2 := boardSet b1 move.fromPos.r move.fromPos.c none
    move.captures.foldl (fun bb cp => boardSet bb cp.r cp.c none) b2

/-- One serialized cell: `.`, `r`, `R`, `w`, `W`. -/
def cellChar : Option Piece → String
  | none => "."
  | some p =>
    match p.player, p.type with
    | Player.RED, PieceType.PAWN => "r"
    | Player.RED, PieceType.KING => "R"
    | Player.WHITE, PieceType.PAWN => "w"
    | Player.WHITE, PieceType.KING => "W"

/-- `serializeBoard` from the services module. -/
def serializeBoard (board : Board) : String :=
  String.intercalate "\n" (board.map (fun row => String.join (row.map cellChar)))

/-- The movement-direction table built at the top of `getPieceMoves`.  Note
    that in the orthogonal case the source bakes the mover's forward vertical
    direction into the table for every piece, kings included. -/
def dirsFor (rules : VariantRules) (player : Player) : List (Int × Int) :=
  if rules.isOrthogonal then
    [(0, 1), (0, -1), ((if player = Player.RED then -1 else 1), 0)]
  else if rules.frisianCapturing then
    [(1, 1), (1, -1), (-1, 1), (-1, -1), (1, 0), (-1, 0), (0, 1), (0, -1)]
  else
    [(1, 1), (1, -1), (-1, 1), (-1, -1)]

/-- Continuation standing for the recursive `findJumps` call one capture
    deeper: landing cell, current rank, updated visited-capture list. -/
def JumpCont : Type := Pos → PieceType → List Pos → List Move

/-- The recurring emission pattern of `findJumps`: recurse from the landing
    cell; if deeper chains exist, emit those, else emit the single chain
    ending here (this exact code appears four times in the source). -/
def chainMoves (next : JumpCont) (fromP landing : Pos) (t : PieceType)
    (newCaptures : List Pos) : List Move :=
  let deeper := next landing t newCaptures
  if deeper.length > 0 then deeper
  else [{ fromPos := fromP, toPos := landing, captures := newCaptures }]

/-- The `currentType === PieceType.PAWN` branch of one direction of the
    `findJumps` closure in `getPieceMoves`. -/
def pawnJumpDir (rules : VariantRules) (board : Board) (piece : Piece) (next : JumpCont)
    (cur : Pos) (currentType : PieceType) (visited : List Pos) (dr dc : Int) : List Move :=
  let size : Int := rules.boardSize
  let isBack : Bool := if piece.player = Player.RED then decide (dr > 0) else decide (dr < 0)
  if isBack ∧ ¬rules.pawnCaptureBackwards ∧ ¬rules.isOrthogonal then []
  else
    let mr := cur.r + dr
    let mc := cur.c + dc
    let er := cur.r + dr * 2
    let ec := cur.c + dc * 2
    if er ≥ 0 ∧ er < size ∧ ec ≥ 0 ∧ ec < size then
      match boardGet board mr mc with
      | none => []
      | some mp =>
        if mp.player ≠ piece.player ∧ boardGet board er ec = none then
          if visited.any (fun v0 => v0.r == mr && v0.c == mc) then []
          else if ¬rules.pawnCanCaptureKing ∧ mp.type = PieceType.KING then []
          else
            let newCaptures := visited ++ [⟨mr, mc⟩]
            let kingRow : Int := if piece.player = Player.RED then 0 else size - 1
            let nextType : PieceType :=
              if rules.pawnKingTransformationMidJump ∧ er = kingRow then PieceType.KING
              else currentType
            chainMoves next piece.position ⟨er, ec⟩ nextType newCaptures
        else []
    else []

/-- The `for (let d = 1; d < size; d++)` scan of the long-range-king capture
    branch: the first occupied in-range cell along the ray, or `none` if the
    ray leaves the board (or the iteration bound is hit) first. -/
def firstPieceOnRay (board : Board) (size : Int) (cur : Pos) (dr dc : Int) :
    Nat → Int → Option (Pos × Piece)
  | 0, _ => none
  | fuel + 1, d =>
    let mr := cur.r + dr * d
    let mc := cur.c + dc * d
    if mr < 0 ∨ mr ≥ size ∨ mc < 0 ∨ mc ≥ size then none
    else
      match boardGet board mr mc with
      | some mp => some (⟨mr, mc⟩, mp)
      | none => firstPieceOnRay board size cur dr dc fuel (d + 1)

/-- The `for (let l = 1; l < size; l++)` landing scan of the long-range-king
    capture branch: for each empty in-range cell past the captured piece, in
    order, emit `handle` of that landing cell; stop at the first blocked or
    off-board cell. -/
def kingLandings (board : Board) (size : Int) (mpos : Pos) (dr dc : Int)
    (handle : Pos → List Move) : Nat → Int → List Move
  | 0, _ => []
  | fuel + 1, l =>
    let lr := mpos.r + dr * l
    let lc := mpos.c + dc * l
    if lr < 0 ∨ lr ≥ size ∨ lc < 0 ∨ lc ≥ size ∨ (boardGet board lr lc).isSome then []
    else
      handle ⟨lr, lc⟩ ++ kingLandings board size mpos dr dc handle fuel (l + 1)

/-- The `rules.kingLongRange` capture branch of one direction of `findJumps`. -/
def kingLongDir (rules : VariantRules) (board : Board) (piece : Piece) (next : JumpCont)
    (cur : Pos) (currentType : PieceType) (visited : List Pos) (dr dc : Int) : List Move :=
  let size : Int := rules.boardSize
  match firstPieceOnRay board size cur dr dc (rules.boardSize - 1) 1 with
  | none => []
  | some (mpos, mp) =>
    if mp.player ≠ piece.player ∧ visited.any (fun v0 => v0.r == mpos.r && v0.c == mpos.c) = false then
      let tr := mpos.r + dr
      let tc := mpos.c + dc
      if tr ≥ 0 ∧ tr < size ∧ tc ≥ 0 ∧ tc < size ∧ boardGet board tr tc = none then
        let newCaptures := visited ++ [mpos]
        if rules.kingStopsAfterCapture then
          chainMoves next piece.position ⟨tr, tc⟩ currentType newCaptures
        else
          kingLandings board size mpos dr dc
            (fun lpos => chainMoves next piece.position lpos currentType newCaptures)
            (rules.boardSize - 1) 1
      else []
    else []

/-- The single-step king capture branch (non-long-range kings) of one
    direction of `findJumps`. -/
def kingShortDir (rules : VariantRules) (board : Board) (piece : Piece) (next : JumpCont)
    (cur : Pos) (currentType : PieceType) (visited : List Pos) (dr dc : Int) : List Move :=
  let size : Int := rules.boardSize
  let mr := cur.r + dr
  let mc := cur.c + dc
  let er := cur.r + dr * 2
  let ec := cur.c + dc * 2
  if er ≥ 0 ∧ er < size ∧ ec ≥ 0 ∧ ec < size then
    match boardGet board mr mc with
    | none => []
    | some mp =>
      if mp.player ≠ piece.player ∧ boardGet board er ec = none ∧
          visited.any (fun v0 => v0.r == mr && v0.c == mc) = false then
        let newCaptures := visited ++ [⟨mr, mc⟩]
        chainMoves next piece.position ⟨er, ec⟩ currentType newCaptures
      else []
  else []

/-- The recursive `findJumps` closure of `getPieceMoves`.  The source recurses
    without an explicit bound; every recursive call extends `visited` by a
    fresh opponent-occupied cell, so chains never exceed `boardSize²` links and
    the explicit fuel (started at `boardSize * boardSize`) is never the
    limiting factor. -/
def findJumps (rules : VariantRules) (board : Board) (piece : Piece) :
    Nat → Pos → PieceType → List Pos → List Move
  | 0, _, _, _ => []
  | fuel + 1, cur, currentType, visited =>
    (dirsFor rules piece.player).flatMap (fun dir =>
      if currentType = PieceType.PAWN then
        pawnJumpDir rules board piece
          (fun pos t vc => findJumps rules board piece fuel pos t vc)
          cur currentType visited dir.1 dir.2
      else if rules.kingLongRange then
        kingLongDir rules board piece
          (fun pos t vc => findJumps rules board piece fuel pos t vc)
          cur currentType visited dir.1 dir.2
      else
        kingShortDir rules board piece
          (fun pos t vc => findJumps rules board piece fuel pos t vc)
          cur currentType visited dir.1 dir.2)

/-- The `for (let d = 1; d < size; d++)` sliding-step loop for long-range
    kings in `getPieceMoves`. -/
def stepSlide (board : Board) (size : Int) (piecePos : Pos) (dr dc : Int) :
    Nat → Int → List Move
  | 0, _ => []
  | fuel + 1, d =>
    let tr := piecePos.r + dr * d
    let tc := piecePos.c + dc * d
    if tr ≥ 0 ∧ tr < size ∧ tc ≥ 0 ∧ tc < size ∧ boardGet board tr tc = none then
      { fromPos := piecePos, toPos := ⟨tr, tc⟩, captures := [] } ::
        stepSlide board size piecePos dr dc fuel (d + 1)
    else []

/-- One direction of the step-move loop at the bottom of `getPieceMoves`. -/
def stepDir (rules : VariantRules) (board : Board) (piece : Piece) (dr dc : Int) : List Move :=
  let size : Int := rules.boardSize
  let isBack : Bool := if piece.player = Player.RED then decide (dr > 0) else decide (dr < 0)
  let isSide : Bool := decide (dr = 0)
  if piece.type = PieceType.PAWN ∧ (isBack ∨ (isSide ∧ ¬rules.isOrthogonal)) then []
  else if piece.type = PieceType.KING ∧ rules.kingLongRange then
    stepSlide board size piece.position dr dc (rules.boardSize - 1) 1
  else
    let tr := piece.position.r + dr
    let tc := piece.position.c + dc
    if tr ≥ 0 ∧ tr < size ∧ tc ≥ 0 ∧ tc < size ∧ boardGet board tr tc = none then
      [{ fromPos := piece.position, toPos := ⟨tr, tc⟩, captures := [] }]
    else []

/-- `getPieceMoves` from the services module: `(jumps, steps)`. -/
def getPieceMoves (board : Board) (piece : Piece) (rules : VariantRules) :
    List Move × List Move :=
  let jumps := findJumps rules board piece (rules.boardSize * rules.boardSize)
    piece.position piece.type []
  let steps := (dirsFor rules piece.player).flatMap (fun dir => stepDir rules board piece dir.1 dir.2)
  (jumps, steps)

/-- The `jumpMoves` aggregation loop of `getValidMoves`. -/
def allJumpMoves (board : Board) (player : Player) (rules : VariantRules) : List Move :=
  (List.range rules.boardSize).flatMap (fun r =>
    (List.range rules.boardSize).flatMap (fun c =>
      match boardGet board r c with
      | some piece => if piece.player = player then (getPieceMoves board piece rules).1 else []
      | none => []))

/-- The `stepMoves` aggregation loop of `getValidMoves`. -/
def allStepMoves (board : Board) (player : Player) (rules : VariantRules) : List Move :=
  (List.range rules.boardSize).flatMap (fun r =>
    (List.range rules.boardSize).flatMap (fun c =>
      match boardGet board r c with
      | some piece => if piece.player = player then (getPieceMoves board piece rules).2 else []
      | none => []))

/-- `m.captures?.length ?? 0`. -/
def capLen (m : Move) : Nat := m.captures.length

/-- The `getKingCount` helper of the quality filter in `getValidMoves`:
    captured cells currently holding a king on the (pre-move) board. -/
def getKingCount (board : Board) (m : Move) : Nat :=
  (m.captures.filter (fun cp =>
    match boardGet board cp.r cp.c with
    | some p => p.type == PieceType.KING
    | none => false)).length

/-- `Math.max(...xs)` for the spread-over-list uses in `getValidMoves`; both
    call sites apply it to a non-empty list of naturals, where folding from 0
    agrees with the source. -/
def listMaxNat (xs : List Nat) : Nat := xs.foldl Nat.max 0

/-- `getValidMoves` from the services module. -/
def getValidMoves (board : Board) (player : Player) (variant : CheckersVariant) : List Move :=
  let rules := getVariantRules variant
  let jumpMoves := allJumpMoves board player rules
  let stepMoves := allStepMoves board player rules
  if jumpMoves.length > 0 then
    let filtered := jumpMoves
    let filtered1 :=
      if rules.kingCapturePriority then
        let kingJumps := jumpMoves.filter (fun m =>
          match boardGet board m.fromPos.r m.fromPos.c with
          | some p => p.type == PieceType.KING
          | none => false)
        if kingJumps.length > 0 then kingJumps else filtered
      else filtered
    let filtered2 :=
      if rules.majorityCaptureRequired then
        let maxQty := listMaxNat (filtered1.map capLen)
        filtered1.filter (fun m => capLen m == maxQty)
      else filtered1
    let filtered3 :=
      if rules.qualityCaptureRequired then
        let maxKings := listMaxNat (filtered2.map (getKingCount board))
        filtered2.filter (fun m => getKingCount board m == maxKings)
      else filtered2
    filtered3
  else stepMoves

/-- `EVAL_WEIGHTS` from the search module (CENTER and WIN are declared there
    but never read by the code under analysis; kept for fidelity). -/
def EVAL_PIECE : Int := 1000
def EVAL_KING : Int := 3500
def EVAL_MOBILITY : Int := 25
def EVAL_CENTER : Int := 80
def EVAL_BACK_ROW : Int := 150
def EVAL_WIN : Int := 10000000

/-- The 8×8 piece-square table `PST` from the search module. -/
def PST : List (List Int) :=
  [[0, 50, 0, 50, 0, 50, 0, 50],
   [40, 0, 45, 0, 45, 0, 40, 0],
   [0, 35, 0, 40, 0, 40, 0, 35],
   [30, 0, 35, 0, 35, 0, 30, 0],
   [0, 30, 0, 35, 0, 35, 0, 30],
   [25, 0, 30, 0, 30, 0, 25, 0],
   [0, 20, 0, 20, 0, 20, 0, 20],
   [15, 0, 15, 0, 15, 0, 15, 0]]

/-- `PST[r][c]` (indices are always in range at use sites). -/
def PSTget (r c : Nat) : Int := (((PST.get? r).getD []).get? c).getD 0

/-- The per-piece value `val` computed inside the `evaluateBoard` loops; it
    depends on the piece only through its owner and rank, made explicit here. -/
def pieceValPT (pl : Player) (t : PieceType) (r c size : Nat) : Int :=
  let isRed := pl = Player.RED
  let v1 : Int := if t = PieceType.KING then EVAL_KING else EVAL_PIECE
  let v2 := v1 + (if isRed then PSTget (min r 7) (min c 7) else PSTget (7 - min r 7) (7 - min c 7))
  let v3 := if t = PieceType.PAWN then v2 + (if isRed then (7 - (r : Int)) else (r : Int)) * 30 else v2
  let v4 := if isRed ∧ r = size - 1 then v3 + EVAL_BACK_ROW else v3
  if ¬isRed ∧ r = 0 then v4 + EVAL_BACK_ROW else v4

/-- See `pieceValPT`. -/
def pieceVal (p : Piece) (r c size : Nat) : Int := pieceValPT p.player p.type r c size

/-- The four accumulators of the `evaluateBoard` loops. -/
structure EvalAcc where
  rMat : Int
  wMat : Int
  rCount : Int
  wCount : Int
deriving DecidableEq, Repr

/-- One cell of the `evaluateBoard` double loop. -/
def cellStep (board : Board) (size : Nat) (acc : EvalAcc) (r c : Nat) : EvalAcc :=
  match boardGet board r c with
  | none => acc
  | some p =>
    if p.player = Player.RED then
      { acc with rMat := acc.rMat + pieceVal p r c size, rCount := acc.rCount + 1 }
    else
      { acc with wMat := acc.wMat + pieceVal p r c size, wCount := acc.wCount + 1 }

/-- The `evaluateBoard` double loop. -/
def evalAccum (board : Board) (size : Nat) : EvalAcc :=
  (List.range size).foldl
    (fun acc r => (List.range size).foldl (fun acc2 c => cellStep board size acc2 r c) acc)
    ⟨0, 0, 0, 0⟩

/-- `evaluateBoard` from the search module. -/
def evaluateBoard (board : Board) (variant : CheckersVariant) : Int :=
  let rules := getVariantRules variant
  let acc := evalAccum board rules.boardSize
  let score := acc.rMat - acc.wMat + (acc.rCount - acc.wCount) * EVAL_MOBILITY
  if rules.isLosingGoal then -score else score

/-- Extended integers for the `-Infinity` / `Infinity` alpha-beta bounds. -/
inductive EInt where
  | negInf
  | fin (z : Int)
  | posInf
deriving DecidableEq, BEq, Repr

/-- `a <= b` on extended integers. -/
def EInt.ble : EInt → EInt → Bool
  | .negInf, _ => true
  | _, .posInf => true
  | .posInf, _ => false
  | .fin a, .fin b => a ≤ b
  | .fin _, .negInf => false

/-- `a < b` on extended integers. -/
def EInt.blt (a b : EInt) : Bool := !(EInt.ble b a)

/-- `Math.max` on extended integers. -/
def EInt.emax (a b : EInt) : EInt := if EInt.ble a b then b else a

/-- `Math.min` on extended integers. -/
def EInt.emin (a b : EInt) : EInt := if EInt.ble a b then a else b

/-- The `'EXACT' | 'LOWER' | 'UPPER'` bound tag of a transposition entry. -/
inductive TTFlag where
  | EXACT
  | LOWER
  | UPPER
deriving DecidableEq, BEq, Repr

/-- A transposition-table entry. -/
structure TTEntry where
  depth : Nat
  score : EInt
  flag : TTFlag
deriving DecidableEq, BEq, Repr

/-- The transposition table: the JS `Map` as an association list in insertion
    order (the engine only uses get/set/size/clear, on which this agrees). -/
abbrev TT : Type := List (String × TTEntry)

/-- `transpositionTable.get(key)`. -/
def ttGet (tt : TT) (key : String) : Option TTEntry :=
  (tt.find? (fun kv => kv.1 == key)).map (fun kv => kv.2)

/-- `transpositionTable.set(key, e)`: replace in place, else append. -/
def ttSet (tt : TT) (key : String) (e : TTEntry) : TT :=
  if tt.any (fun kv => kv.1 == key) then
    tt.map (fun kv => if kv.1 == key then (key, e) else kv)
  else tt ++ [(key, e)]

/-- The `> 20000` wholesale-clear threshold tested in `getBestMove`. -/
def ttClearThreshold : Nat := 20000

/-- The `< 50000` store-size threshold tested in `alphaBeta`. -/
def ttStoreThreshold : Nat := 50000

/-- JS string conversion of the `Player` enum value. -/
def playerStr : Player → String
  | .RED => "RED"
  | .WHITE => "WHITE"

/-- JS string conversion of a boolean. -/
def boolStr : Bool → String
  | true => "true"
  | false => "false"

/-- The cache key `serializeBoard(board) + isMax + player` of `alphaBeta`. -/
def ttKey (board : Board) (isMax : Bool) (player : Player) : String :=
  serializeBoard board ++ boolStr isMax ++ playerStr player

/-- The maximizing `for (const move of moves)` loop of `quiesce`; `next` is
    the recursive `quiesce` call one ply deeper. -/
def quiesceLoopMax (v : CheckersVariant) (next : Board → EInt → EInt → EInt)
    (board : Board) (beta : EInt) : List Move → EInt → EInt
  | [], alpha => alpha
  | m :: ms, alpha =>
    let alpha1 := EInt.emax alpha (next (applyMove board m v) alpha beta)
    if EInt.ble beta alpha1 then alpha1
    else quiesceLoopMax v next board beta ms alpha1

/-- The minimizing `for (const move of moves)` loop of `quiesce`. -/
def quiesceLoopMin (v : CheckersVariant) (next : Board → EInt → EInt → EInt)
    (board : Board) (alpha : EInt) : List Move → EInt → EInt
  | [], beta => beta
  | m :: ms, beta =>
    let beta1 := EInt.emin beta (next (applyMove board m v) alpha beta)
    if EInt.ble beta1 alpha then beta1
    else quiesceLoopMin v next board alpha ms beta1

/-- `quiesce` from the search module, with its increasing `depth` counter
    replaced by the equivalent countdown `fuel = 5 - depth` (the source stops
    at `depth > 4` and recurses at `depth + 1`). -/
def quiesceGo (v : CheckersVariant) : Nat → Board → EInt → EInt → Bool → Player → EInt
  | 0, board, _, _, _, _ => EInt.fin (evaluateBoard board v)
  | fuel + 1, board, alpha, beta, isMax, player =>
    let standPat := EInt.fin (evaluateBoard board v)
    if isMax then
      if EInt.ble beta standPat then beta
      else
        let alpha1 := if EInt.blt alpha standPat then standPat else alpha
        let moves := (getValidMoves board player v).filter (fun m => capLen m > 0)
        quiesceLoopMax v (fun b a bb => quiesceGo v fuel b a bb false Player.WHITE)
          board beta moves alpha1
    else
      if EInt.ble standPat alpha then alpha
      else
        let beta1 := if EInt.blt standPat beta then standPat else beta
        let moves := (getValidMoves board player v).filter (fun m => capLen m > 0)
        quiesceLoopMin v (fun b a bb => quiesceGo v fuel b a bb true Player.RED)
          board alpha moves beta1

/-- `quiesce` at the source's own signature (callers pass `depth = 0`). -/
def quiesce (board : Board) (alpha beta : EInt) (isMax : Bool) (player : Player)
    (v : CheckersVariant) (depth : Nat) : EInt :=
  quiesceGo v (5 - depth) board alpha beta isMax player

/-- Stable insertion sort by descending capture count: the result of the
    (ES2019, stable) `moves.sort((a, b) => (b.captures?.length || 0) -
    (a.captures?.length || 0))` call in `alphaBeta`. -/
def insertByCapsDesc (m : Move) : List Move → List Move
  | [] => [m]
  | x :: xs => if capLen x > capLen m then x :: insertByCapsDesc m xs else m :: x :: xs

/-- See `insertByCapsDesc`. -/
def sortByCapsDesc : List Move → List Move
  | [] => []
  | m :: ms => insertByCapsDesc m (sortByCapsDesc ms)

/-- The bound tag chosen at the store site of `alphaBeta`:
    `best <= alpha ? 'UPPER' : best >= beta ? 'LOWER' : 'EXACT'`. -/
def storeFlag (best alpha beta : EInt) : TTFlag :=
  if EInt.ble best alpha then TTFlag.UPPER
  else if EInt.ble beta best then TTFlag.LOWER
  else TTFlag.EXACT

/-- The `for (const move of ordered)` loop of `alphaBeta`; `next` is the
    recursive call one ply shallower; the table is threaded through the
    children.  Returns the final `(best, alpha, beta, table)`. -/
def abLoop (v : CheckersVariant)
    (next : Board → EInt → EInt → Bool → Player → TT → EInt × TT)
    (board : Board) (isMax : Bool) (player : Player) :
    List Move → EInt → EInt → EInt → TT → EInt × EInt × EInt × TT
  | [], best, alpha, beta, tt => (best, alpha, beta, tt)
  | m :: ms, best, alpha, beta, tt =>
    let res := next (applyMove board m v) alpha beta (!isMax)
      (if player = Player.RED then Player.WHITE else Player.RED) tt
    if isMax then
      let best1 := EInt.emax best res.1
      let alpha1 := EInt.emax alpha best1
      if EInt.ble beta alpha1 then (best1, alpha1, beta, res.2)
      else abLoop v next board isMax player ms best1 alpha1 beta res.2
    else
      let best1 := EInt.emin best res.1
      let beta1 := EInt.emin beta best1
      if EInt.ble beta1 alpha then (best1, alpha, beta1, res.2)
      else abLoop v next board isMax player ms best1 alpha beta1 res.2

/-- The cache-probe prologue of `alphaBeta` (source lines: exact hit returns,
    lower/upper bounds tighten the window, a closed window returns): yields
    `(early-return score if any, alpha, beta)`. -/
def ttProbe (cached0 : Option TTEntry) (depth : Nat) (alpha0 beta0 : EInt) :
    Option EInt × EInt × EInt :=
  match cached0 with
  | some cached =>
    if cached.depth ≥ depth then
      match cached.flag with
      | TTFlag.EXACT => (some cached.score, alpha0, beta0)
      | TTFlag.LOWER =>
        let alpha1 := EInt.emax alpha0 cached.score
        if EInt.ble beta0 alpha1 then (some cached.score, alpha1, beta0)
        else (none, alpha1, beta0)
      | TTFlag.UPPER =>
        let beta1 := EInt.emin beta0 cached.score
        if EInt.ble beta1 alpha0 then (some cached.score, alpha0, beta1)
        else (none, alpha0, beta1)
    else (none, alpha0, beta0)
  | none => (none, alpha0, beta0)

/-- `alphaBeta` from the search module, with the shared mutable table made an
    explicit input/output. -/
def alphaBeta (v : CheckersVariant) (depth : Nat) (board : Board) (alpha0 beta0 : EInt)
    (isMax : Bool) (player : Player) (tt : TT) : EInt × TT :=
  let key := ttKey board isMax player
  let probed := ttProbe (ttGet tt key) depth alpha0 beta0
  match probed.1 with
  | some sc => (sc, tt)
  | none =>
    let alpha := probed.2.1
    let beta := probed.2.2
    let moves := getValidMoves board player v
    if moves.length = 0 then (quiesce board alpha beta isMax player v 0, tt)
    else
      match depth with
      | 0 => (quiesce board alpha beta isMax player v 0, tt)
      | d + 1 =>
        let ordered := sortByCapsDesc moves
        let init : EInt := if isMax then EInt.negInf else EInt.posInf
        let r := abLoop v (fun b a bb im p t => alphaBeta v d b a bb im p t)
          board isMax player ordered init alpha beta tt
        let tt1 := r.2.2.2
        let tt2 :=
          if tt1.length < ttStoreThreshold then
            ttSet tt1 key { depth := d + 1, score := r.1, flag := storeFlag r.1 r.2.1 r.2.2.1 }
          else tt1
        (r.1, tt2)

/-- The difficulty-to-depth step function inlined in `getBestMove`. -/
def depthOfLevel (lv : Int) : Nat :=
  if lv ≤ 2 then 2
  else if lv ≤ 4 then 4
  else if lv ≤ 6 then 5
  else if lv ≤ 8 then 6
  else if lv ≤ 10 then 8
  else if lv ≤ 12 then 9
  else if lv ≤ 14 then 10
  else if lv = 15 then 11
  else if lv = 16 then 12
  else if lv = 17 then 14
  else 16

/-- `GameState` restricted to the fields the engine reads (`winner`,
    `history` and `mode` are never consulted by `getBestMove`). -/
structure GameState where
  board : Board
  turn : Player
  aiLevel : Int
  variant : CheckersVariant

/-- The best-move selection loop of `getBestMove`. -/
def gbmLoop (v : CheckersVariant) (boardv : Board) (turn : Player) (d : Nat) :
    List Move → Move → EInt → TT → Move × TT
  | [], bestMove, _, tt => (bestMove, tt)
  | m :: ms, bestMove, bestScore, tt =>
    let res := alphaBeta v d (applyMove boardv m v) EInt.negInf EInt.posInf
      (!(turn == Player.RED)) (if turn = Player.RED then Player.WHITE else Player.RED) tt
    if (turn = Player.RED ∧ EInt.blt bestScore res.1) ∨
        (turn = Player.WHITE ∧ EInt.blt res.1 bestScore) then
      gbmLoop v boardv turn d ms m res.1 res.2
    else
      gbmLoop v boardv turn d ms bestMove bestScore res.2

/-- `getBestMove` from the search module (table threaded explicitly). -/
def getBestMove (gs : GameState) (tt : TT) : Option Move × TT :=
  let tt0 : TT := if tt.length > ttClearThreshold then [] else tt
  let depth := depthOfLevel gs.aiLevel
  let moves := getValidMoves gs.board gs.turn gs.variant
  match moves with
  | [] => (none, tt0)
  | m0 :: _ =>
    let r := gbmLoop gs.variant gs.board gs.turn (depth - 1) moves m0
      (if gs.turn = Player.RED then EInt.negInf else EInt.posInf) tt0
    (some r.1, r.2)

/-! Concrete fixtures used by witnesses and counterexamples. -/

/-- An n×n board of empty cells. -/
def emptyBoardN (n : Nat) : Board := List.replicate n (List.replicate n none)

/-- A piece literal for fixtures. -/
def mkPiece (pl : Player) (t : PieceType) (r c : Int) : Piece :=
  { id := "x", player := pl, type := t, position := ⟨r, c⟩ }

/-- 8×8: RED pawn at (5,2), WHITE pawns at (4,3) and (2,3) — one forced
    double-jump chain for RED. -/
def doubleJumpBoard : Board :=
  boardSet (boardSet (boardSet (emptyBoardN 8)
    5 2 (some (mkPiece Player.RED PieceType.PAWN 5 2)))
    4 3 (some (mkPiece Player.WHITE PieceType.PAWN 4 3)))
    2 3 (some (mkPiece Player.WHITE PieceType.PAWN 2 3))

/-- 8×8: RED pawn at (5,2), WHITE pawns at (4,1), (4,3), (2,3) — a length-1
    and a length-2 capture chain for RED. -/
def majorityBoard : Board :=
  boardSet (boardSet (boardSet (boardSet (emptyBoardN 8)
    5 2 (some (mkPiece Player.RED PieceType.PAWN 5 2)))
    4 1 (some (mkPiece Player.WHITE PieceType.PAWN 4 1)))
    4 3 (some (mkPiece Player.WHITE PieceType.PAWN 4 3)))
    2 3 (some (mkPiece Player.WHITE PieceType.PAWN 2 3))

/-- 8×8: a lone RED king at (3,3) (Turkish fixture). -/
def turkishKingBoard : Board :=
  boardSet (emptyBoardN 8) 3 3 (some (mkPiece Player.RED PieceType.KING 3 3))

/-- 8×8: RED pawn at (5,0), WHITE pawn at (0,7) — quiet position, one legal
    RED move (search fixture). -/
def abFixtureBoard : Board :=
  boardSet (boardSet (emptyBoardN 8)
    5 0 (some (mkPiece Player.RED PieceType.PAWN 5 0)))
    0 7 (some (mkPiece Player.WHITE PieceType.PAWN 0 7))

/-- 10×10: a lone RED pawn at (8,1) (evaluation-mirror fixture). -/
def intMirrorBoard : Board :=
  boardSet (emptyBoardN 10) 8 1 (some (mkPiece Player.RED PieceType.PAWN 8 1))

/-- Claim-side observable: number of rows of a board containing at least one
    piece of the given side. -/
def rowsWithPlayer (b : Board) (pl : Player) : Nat :=
  ((List.range b.length).filter (fun r =>
    ((b.get? r).getD []).any (fun cell =>
      match cell with
      | some p => p.player == pl
      | none => false))).length

/-- Claim-side observable: every occupied cell lies on the playable (dark)
    square color `(r + c) % 2 ≠ 0`. -/
def piecesOnPlayableColor (b : Board) : Bool :=
  (List.range b.length).all (fun r =>
    (List.range b.length).all (fun c =>
      (boardGet b r c).isNone || decide ((r + c) % 2 ≠ 0)))

/-- The per-side filled-row count `createInitialBoard` actually produces:
    2 on the all-squares (non-dark-square-play) boards and for Thai, else
    3/4/5 by board width. -/
def expectedFillRows (v : CheckersVariant) : Nat :=
  let rules := getVariantRules v
  if rules.darkSquarePlay = false then 2
  else if v = CheckersVariant.THAI then 2
  else if rules.boardSize = 12 then 5
  else if rules.boardSize ≥ 10 then 4
  else 3

/-- The point-reflected, side-swapped mirror of a board (claim C5's words):
    each piece replaced by a same-rank piece of the other side at cell
    (N-1-r, N-1-c). -/
def swapPiece (p : Piece) : Piece :=
  { p with player := if p.player = Player.RED then Player.WHITE else Player.RED }

/-- See `swapPiece`. -/
def mirrorBoard (n : Nat) (board : Board) : Board :=
  (List.range n).map (fun (r : Nat) =>
    (List.range n).map (fun (c : Nat) =>
      (boardGet board ((n : Int) - 1 - (r : Int)) ((n : Int) - 1 - (c : Int))).map swapPiece))

/-- C8: the difficulty-to-depth mapping of `getBestMove` is monotonically
    non-decreasing over all integer levels, and every depth it produces lies
    between 2 and 16 inclusive. -/
lemma depthOfLevel_low {l : Int} (h : l ≤ 2) : depthOfLevel l = 2 := by
  unfold depthOfLevel
  rw [if_pos h]

lemma depthOfLevel_high {l : Int} (h : 18 ≤ l) : depthOfLevel l = 16 := by
  unfold depthOfLevel
  have h2 : ¬ l ≤ 2 := by omega
  have h4 : ¬ l ≤ 4 := by omega
  have h6 : ¬ l ≤ 6 := by omega
  have h8 : ¬ l ≤ 8 := by omega
  have g0 : ¬ l ≤ 10 := by omega
  have g2 : ¬ l ≤ 12 := by omega
  have g4 : ¬ l ≤ 14 := by omega
  have g5 : ¬ l = 15 := by omega
  have g6 : ¬ l = 16 := by omega
  have g7 : ¬ l = 17 := by omega
  rw [if_neg h2, if_neg h4, if_neg h6, if_neg h8, if_neg g0, if_neg g2, if_neg g4,
    if_neg g5, if_neg g6, if_neg g7]

lemma depthOfLevel_mid (a : Fin 16) : depthOfLevel (2 + (a.val : Int)) ≤ 16 ∧
    2 ≤ depthOfLevel (2 + (a.val : Int)) ∧
    ∀ b : Fin 16, a.val ≤ b.val →
      depthOfLevel (2 + (a.val : Int)) ≤ depthOfLevel (2 + (b.val : Int)) := by
  revert a
  decide

lemma depthOfLevel_as_mid {l : Int} (h2 : 2 ≤ l) (h17 : l ≤ 17) :
    depthOfLevel l = depthOfLevel (2 + ((l - 2).toNat : Int)) := by
  congr 1
  omega

theorem C8_depth_mapping_monotone_and_bounded :
    (∀ l1 l2 : Int, l1 ≤ l2 → depthOfLevel l1 ≤ depthOfLevel l2) ∧
    (∀ lv : Int, 2 ≤ depthOfLevel lv ∧ depthOfLevel lv ≤ 16) := by
  have hbnd : ∀ lv : Int, 2 ≤ depthOfLevel lv ∧ depthOfLevel lv ≤ 16 := by
    intro lv
    rcases le_or_lt lv 2 with h | h
    · rw [depthOfLevel_low h]
      omega
    rcases le_or_lt 18 lv with h18 | h18
    · rw [depthOfLevel_high h18]
      omega
    rw [depthOfLevel_as_mid (by omega) (by omega)]
    have hm := depthOfLevel_mid ⟨(lv - 2).toNat, by omega⟩
    exact ⟨hm.2.1, hm.1⟩
  refine ⟨?_, hbnd⟩
  intro l1 l2 h
  rcases le_or_lt l1 2 with h1 | h1
  · rw [depthOfLevel_low h1]
    exact (hbnd l2).1
  rcases le_or_lt 18 l2 with h2 | h2
  · rw [depthOfLevel_high h2]
    exact (hbnd l1).2
  rw [depthOfLevel_as_mid (l := l1) (by omega) (by omega),
    depthOfLevel_as_mid (l := l2) (by omega) (by omega)]
  exact (depthOfLevel_mid ⟨(l1 - 2).toNat, by omega⟩).2.2 ⟨(l2 - 2).toNat, by omega⟩
    (show (l1 - 2).toNat ≤ (l2 - 2).toNat by omega)

/-- Witness for C8 at concrete levels 3 ≤ 7. -/
theorem C8_depth_mapping_witness :
    depthOfLevel 3 ≤ depthOfLevel 7 ∧ 2 ≤ depthOfLevel 3 ∧ depthOfLevel 3 ≤ 16 :=
  ⟨C8_depth_mapping_monotone_and_bounded.1 3 7 (by decide),
   (C8_depth_mapping_monotone_and_bounded.2 3).1,
   (C8_depth_mapping_monotone_and_bounded.2 3).2⟩

/-- C4 (the code evaluated at the failing input): in the Turkish variant the
    rule-set is orthogonal, yet the direction table holds only three
    directions, and a lone RED king at (3,3) — with (4,3) empty — is offered
    moves only sideways and forward: no returned move increases its row, so a
    king cannot step or capture backward, contradicting the claim's four
    orthogonal directions. -/
theorem C4_turkish_king_cannot_move_backward :
    (getVariantRules CheckersVariant.TURKISH).isOrthogonal = true ∧
    (dirsFor (getVariantRules CheckersVariant.TURKISH) Player.RED).length = 3 ∧
    boardGet turkishKingBoard 4 3 = none ∧
    (getValidMoves turkishKingBoard Player.RED CheckersVariant.TURKISH).length > 0 ∧
    (getValidMoves turkishKingBoard Player.RED CheckersVariant.TURKISH).all
      (fun m => decide (m.toPos.r ≤ m.fromPos.r)) = true := by
  decide

/-- Counterexample to C7 as stated: Turkish plays on an 8-wide board and is
    not Thai, yet `createInitialBoard` fills only 2 rows per side (rows 1–2),
    not 3. -/
theorem C7_counterexample_turkish_two_rows :
    CheckersVariant.TURKISH ≠ CheckersVariant.THAI ∧
    (getVariantRules CheckersVariant.TURKISH).boardSize = 8 ∧
    rowsWithPlayer (createInitialBoard CheckersVariant.TURKISH) Player.WHITE = 2 ∧
    rowsWithPlayer (createInitialBoard CheckersVariant.TURKISH) Player.RED = 2 := by
  decide

/-- C7 amended: per side, `createInitialBoard` fills 3 rows on 8-wide boards,
    4 on 10-wide, 5 on 12-wide, except Thai (2 rows) and the two all-squares
    variants Turkish and Armenian (2 rows, on every column); pieces land only
    on the playable square color whenever the variant restricts play to one
    color. -/
theorem C7_initial_board_row_counts :
    ∀ v : CheckersVariant,
      rowsWithPlayer (createInitialBoard v) Player.WHITE = expectedFillRows v ∧
      rowsWithPlayer (createInitialBoard v) Player.RED = expectedFillRows v ∧
      (!(getVariantRules v).darkSquarePlay || piecesOnPlayableColor (createInitialBoard v)) = true := by
  decide

/-- Counterexample to C9 as stated: the wholesale-clear ("safety") threshold
    of `getBestMove` is 20000, which is not larger than the 50000 threshold
    below which `alphaBeta` stores entries. -/
theorem C9_counterexample_threshold_order :
    ¬ (ttStoreThreshold < ttClearThreshold) := by
  decide

/-- Counterexample to C5 as stated: on the 10-wide International board (a
    non-losing-goal variant) a lone RED pawn at (8,1) and its side-swapped
    point-reflected mirror do not evaluate to exact negations (995 versus
    -1055): the 8×8-clamped piece-square table and the `(7 - r) * 30`
    advancement bonus are not symmetric under reflection of a 10-wide
    board. -/
theorem C5_counterexample_size10 :
    (getVariantRules CheckersVariant.INTERNATIONAL).isLosingGoal = false ∧
    ¬ (evaluateBoard (mirrorBoard 10 intMirrorBoard) CheckersVariant.INTERNATIONAL =
       - evaluateBoard intMirrorBoard CheckersVariant.INTERNATIONAL) := by
  decide

/-- Counterexample to C3 as stated: `alphaBeta` on `abFixtureBoard` (one RED
    move, no captures) at depth 1 with the full original window
    (-∞, +∞) finishes with a value strictly inside that original window, so
    the claim prescribes an `exact` tag — but the code compares against the
    loop-mutated alpha (already raised to the final value) and stores
    `UPPER`. -/
theorem C3_counterexample_inside_window_stored_upper :
    ((ttGet (alphaBeta CheckersVariant.ENGLISH 1 abFixtureBoard EInt.negInf EInt.posInf true
        Player.RED []).2 (ttKey abFixtureBoard true Player.RED)).map (fun e => e.flag) =
      some TTFlag.UPPER) ∧
    ((ttGet (alphaBeta CheckersVariant.ENGLISH 1 abFixtureBoard EInt.negInf EInt.posInf true
        Player.RED []).2 (ttKey abFixtureBoard true Player.RED)).map (fun e =>
        EInt.blt EInt.negInf e.score && EInt.blt e.score EInt.posInf) = some true) := by
  decide

lemma ttSet_length_le (tt : TT) (key : String) (e : TTEntry) :
    (ttSet tt key e).length ≤ tt.length + 1 := by
  unfold ttSet
  split_ifs with h
  · simp
  · simp

lemma abLoop_tt_le (v : CheckersVariant)
    (next : Board → EInt → EInt → Bool → Player → TT → EInt × TT)
    (board : Board) (isMax : Bool) (player : Player)
    (hnext : ∀ b a bb im p t, t.length ≤ ttStoreThreshold →
      ((next b a bb im p t).2).length ≤ ttStoreThreshold) :
    ∀ (ms : List Move) (best alpha beta : EInt) (tt : TT), tt.length ≤ ttStoreThreshold →
      ((abLoop v next board isMax player ms best alpha beta tt).2.2.2).length ≤ ttStoreThreshold := by
  intro ms
  induction ms with
  | nil =>
    intro best alpha beta tt h
    simpa [abLoop] using h
  | cons m ms ih =>
    intro best alpha beta tt h
    simp only [abLoop]
    split_ifs <;> first
      | exact hnext _ _ _ _ _ _ h
      | exact ih _ _ _ _ (hnext _ _ _ _ _ _ h)

lemma alphaBeta_tt_le : ∀ (d : Nat) (v : CheckersVariant) (board : Board) (a b : EInt)
    (im : Bool) (p : Player) (tt : TT), tt.length ≤ ttStoreThreshold →
    ((alphaBeta v d board a b im p tt).2).length ≤ ttStoreThreshold := by
  intro d
  induction d with
  | zero =>
    intro v board a b im p tt h
    rw [alphaBeta]
    rcases hp : (ttProbe (ttGet tt (ttKey board im p)) 0 a b).1 with _ | sc
    · simp only [hp]
      split_ifs <;> simpa using h
    · simpa [hp] using h
  | succ d ih =>
    intro v board a b im p tt h
    rw [alphaBeta]
    rcases hp : (ttProbe (ttGet tt (ttKey board im p)) (d + 1) a b).1 with _ | sc
    · simp only [hp]
      have hloop := abLoop_tt_le v (fun b2 a2 bb2 im2 p2 t2 => alphaBeta v d b2 a2 bb2 im2 p2 t2)
        board im p (fun b2 a2 bb2 im2 p2 t2 ht => ih v b2 a2 bb2 im2 p2 t2 ht)
        (sortByCapsDesc (getValidMoves board p v))
        (if im = true then EInt.negInf else EInt.posInf)
        (ttProbe (ttGet tt (ttKey board im p)) (d + 1) a b).2.1
        (ttProbe (ttGet tt (ttKey board im p)) (d + 1) a b).2.2 tt h
      split_ifs with hm him hs
      · simpa using h
      all_goals try rw [if_pos him] at hloop
      all_goals try rw [if_neg him] at hloop
      all_goals first
        | exact le_trans (ttSet_length_le _ _ _) (by omega)
        | exact hloop
    · simpa [hp] using h

lemma gbmLoop_tt_le (v : CheckersVariant) (boardv : Board) (turn : Player) (d : Nat) :
    ∀ (ms : List Move) (m0 : Move) (s0 : EInt) (tt : TT), tt.length ≤ ttStoreThreshold →
      ((gbmLoop v boardv turn d ms m0 s0 tt).2).length ≤ ttStoreThreshold := by
  intro ms
  induction ms with
  | nil =>
    intro m0 s0 tt h
    simpa [gbmLoop] using h
  | cons m ms ih =>
    intro m0 s0 tt h
    simp only [gbmLoop]
    split_ifs <;>
      exact ih _ _ _ (alphaBeta_tt_le d v (applyMove boardv m v) EInt.negInf EInt.posInf _ _ tt h)

/-- A table of 20001 identical entries (C9 witness fixture). -/
def bigTT : TT :=
  List.replicate 20001 ("k", { depth := 0, score := EInt.fin 0, flag := TTFlag.LOWER })

/-- GameState fixture for the C9 witness. -/
def gsC9 : GameState :=
  { board := abFixtureBoard, turn := Player.RED, aiLevel := 1, variant := CheckersVariant.ENGLISH }

/-- C9 amended: `getBestMove` empties the whole table at the start of a
    top-level call whenever its size exceeds the 20000 safety threshold; that
    threshold is strictly SMALLER than (not larger than, as claimed) the 50000
    bound below which `alphaBeta` stores entries; and the table size after any
    top-level call never exceeds the store threshold. -/
theorem C9_table_clear_and_thresholds :
    (∀ (gs : GameState) (tt : TT), ttClearThreshold < tt.length →
      getBestMove gs tt = getBestMove gs []) ∧
    ttClearThreshold < ttStoreThreshold ∧
    (∀ (gs : GameState) (tt : TT), ((getBestMove gs tt).2).length ≤ ttStoreThreshold) := by
  refine ⟨?_, by decide, ?_⟩
  · intro gs tt h
    rw [getBestMove, getBestMove, if_pos h]
    simp [ttClearThreshold]
  · intro gs tt
    have htt0 : (if tt.length > ttClearThreshold then ([] : TT) else tt).length ≤
        ttStoreThreshold := by
      split_ifs with hc
      · simp [ttStoreThreshold]
      · simp only [ttClearThreshold] at hc
        simp only [ttStoreThreshold]
        omega
    simp only [getBestMove]
    rcases hmv : getValidMoves gs.board gs.turn gs.variant with _ | ⟨m0, ms⟩ <;>
      simp only [hmv]
    · simpa using htt0
    · exact gbmLoop_tt_le _ _ _ _ _ _ _ _ htt0

/-- Witness for C9: a 20001-entry table is cleared wholesale. -/
theorem C9_witness_cleared : getBestMove gsC9 bigTT = getBestMove gsC9 [] :=
  C9_table_clear_and_thresholds.1 gsC9 bigTT
    (show ttClearThreshold < bigTT.length by
      rw [bigTT, List.length_replicate]
      decide)

/-- The chain invariant carried by `findJumps`: every emitted move strictly
    extends the visited-capture list, and extends it without duplicates. -/
def JumpInv (vc : List Pos) (m : Move) : Prop :=
  vc.length < m.captures.length ∧ (vc.Nodup → m.captures.Nodup)

lemma nodup_append_singleton {vc : List Pos} {x : Pos} (hx : x ∉ vc) (hnd : vc.Nodup) :
    (vc ++ [x]).Nodup := by
  rw [List.nodup_append]
  refine ⟨hnd, List.nodup_singleton x, ?_⟩
  intro a ha hax
  rw [List.mem_singleton] at hax
  exact hx (hax ▸ ha)

lemma pos_not_mem_of_any_false {vc : List Pos} {x : Pos}
    (h : vc.any (fun v0 => v0.r == x.r && v0.c == x.c) = false) : x ∉ vc := by
  intro hmem
  have h2 : vc.any (fun v0 => v0.r == x.r && v0.c == x.c) = true :=
    List.any_eq_true.mpr ⟨x, hmem, by simp⟩
  simp [h] at h2

lemma chainMoves_inv {next : JumpCont} {vc : List Pos} {x : Pos} (hx : x ∉ vc)
    (hnext : ∀ pos t vc2 m2, m2 ∈ next pos t vc2 → JumpInv vc2 m2)
    {fp landing : Pos} {t : PieceType} {m : Move}
    (hm : m ∈ chainMoves next fp landing t (vc ++ [x])) : JumpInv vc m := by
  simp only [chainMoves] at hm
  split_ifs at hm with hd
  · obtain ⟨hi1, hi2⟩ := hnext landing t (vc ++ [x]) m hm
    constructor
    · simp only [List.length_append, List.length_singleton] at hi1
      omega
    · intro hnd
      exact hi2 (nodup_append_singleton hx hnd)
  · rw [List.mem_singleton] at hm
    subst hm
    constructor
    · simp
    · intro hnd
      exact nodup_append_singleton hx hnd

lemma kingLandings_inv {board : Board} {size : Int} {mpos : Pos} {dr dc : Int}
    {handle : Pos → List Move} {P : Move → Prop}
    (h : ∀ lpos m, m ∈ handle lpos → P m) :
    ∀ (fuelL : Nat) (l : Int) (m : Move),
      m ∈ kingLandings board size mpos dr dc handle fuelL l → P m := by
  intro fuelL
  induction fuelL with
  | zero =>
    intro l m hm
    simp [kingLandings] at hm
  | succ fuelL ih =>
    intro l m hm
    simp only [kingLandings] at hm
    split_ifs at hm with hb
    · simp at hm
    · rw [List.mem_append] at hm
      rcases hm with hm | hm
      · exact h _ m hm
      · exact ih _ m hm

lemma pawnJumpDir_inv {rules : VariantRules} {board : Board} {piece : Piece} {next : JumpCont}
    {cur : Pos} {ct : PieceType} {vc : List Pos} {dr dc : Int}
    (hnext : ∀ pos t vc2 m2, m2 ∈ next pos t vc2 → JumpInv vc2 m2) :
    ∀ m ∈ pawnJumpDir rules board piece next cur ct vc dr dc, JumpInv vc m := by
  intro m hm
  simp only [pawnJumpDir] at hm
  repeat' split at hm
  all_goals first
    | exact absurd hm (List.not_mem_nil m)
    | exact chainMoves_inv (pos_not_mem_of_any_false (by simp_all)) hnext hm

lemma kingLongDir_inv {rules : VariantRules} {board : Board} {piece : Piece} {next : JumpCont}
    {cur : Pos} {ct : PieceType} {vc : List Pos} {dr dc : Int}
    (hnext : ∀ pos t vc2 m2, m2 ∈ next pos t vc2 → JumpInv vc2 m2) :
    ∀ m ∈ kingLongDir rules board piece next cur ct vc dr dc, JumpInv vc m := by
  intro m hm
  simp only [kingLongDir] at hm
  repeat' split at hm
  all_goals first
    | exact absurd hm (List.not_mem_nil m)
    | exact chainMoves_inv (pos_not_mem_of_any_false (by simp_all)) hnext hm
    | exact kingLandings_inv
        (fun lpos m2 hm2 => chainMoves_inv (pos_not_mem_of_any_false (by simp_all)) hnext hm2)
        _ _ m hm

lemma kingShortDir_inv {rules : VariantRules} {board : Board} {piece : Piece} {next : JumpCont}
    {cur : Pos} {ct : PieceType} {vc : List Pos} {dr dc : Int}
    (hnext : ∀ pos t vc2 m2, m2 ∈ next pos t vc2 → JumpInv vc2 m2) :
    ∀ m ∈ kingShortDir rules board piece next cur ct vc dr dc, JumpInv vc m := by
  intro m hm
  simp only [kingShortDir] at hm
  repeat' split at hm
  all_goals first
    | exact absurd hm (List.not_mem_nil m)
    | exact chainMoves_inv (pos_not_mem_of_any_false (by simp_all)) hnext hm

lemma findJumps_inv : ∀ (fuel : Nat) (rules : VariantRules) (board : Board) (piece : Piece)
    (cur : Pos) (ct : PieceType) (vc : List Pos) (m : Move),
    m ∈ findJumps rules board piece fuel cur ct vc → JumpInv vc m := by
  intro fuel
  induction fuel with
  | zero =>
    intro rules board piece cur ct vc m hm
    simp [findJumps] at hm
  | succ fuel ih =>
    intro rules board piece cur ct vc m hm
    simp only [findJumps] at hm
    rw [List.mem_flatMap] at hm
    obtain ⟨dir, hdir, hm⟩ := hm
    have hnext : ∀ pos t vc2 m2, m2 ∈ findJumps rules board piece fuel pos t vc2 →
        JumpInv vc2 m2 := fun pos t vc2 m2 hm2 => ih rules board piece pos t vc2 m2 hm2
    split at hm
    · exact pawnJumpDir_inv hnext m hm
    · split at hm
      · exact kingLongDir_inv hnext m hm
      · exact kingShortDir_inv hnext m hm

lemma allJumpMoves_inv {board : Board} {player : Player} {rules : VariantRules} :
    ∀ m ∈ allJumpMoves board player rules, 0 < capLen m ∧ m.captures.Nodup := by
  intro m hm
  simp only [allJumpMoves] at hm
  rw [List.mem_flatMap] at hm
  obtain ⟨r, hr, hm⟩ := hm
  rw [List.mem_flatMap] at hm
  obtain ⟨c, hc, hm⟩ := hm
  split at hm
  · split_ifs at hm with hp
    · simp only [getPieceMoves] at hm
      have hinv := findJumps_inv _ _ _ _ _ _ _ m hm
      exact ⟨hinv.1, hinv.2 List.nodup_nil⟩
    · simp at hm
  · simp at hm

lemma getValidMoves_eq_steps {board : Board} {player : Player} {variant : CheckersVariant}
    (h : allJumpMoves board player (getVariantRules variant) = []) :
    getValidMoves board player variant = allStepMoves board player (getVariantRules variant) := by
  simp only [getValidMoves]
  rw [h]
  simp

lemma getValidMoves_sub_jumps {board : Board} {player : Player} {variant : CheckersVariant}
    (h : allJumpMoves board player (getVariantRules variant) ≠ []) :
    ∀ m ∈ getValidMoves board player variant,
      m ∈ allJumpMoves board player (getVariantRules variant) := by
  intro m hm
  simp only [getValidMoves] at hm
  rw [if_pos (List.length_pos.mpr h)] at hm
  split_ifs at hm <;>
    repeat first
      | exact hm
      | replace hm := (List.mem_filter.mp hm).1

lemma stepSlide_captures : ∀ (fuel : Nat) (board : Board) (size : Int) (pos : Pos)
    (dr dc : Int) (d : Int) (m : Move), m ∈ stepSlide board size pos dr dc fuel d →
    m.captures = [] := by
  intro fuel
  induction fuel with
  | zero =>
    intro board size pos dr dc d m hm
    simp [stepSlide] at hm
  | succ fuel ih =>
    intro board size pos dr dc d m hm
    simp only [stepSlide] at hm
    split_ifs at hm with hb
    · rw [List.mem_cons] at hm
      rcases hm with hm | hm
      · subst hm
        rfl
      · exact ih board size pos dr dc (d + 1) m hm
    · simp at hm

lemma stepDir_captures {rules : VariantRules} {board : Board} {piece : Piece} {dr dc : Int} :
    ∀ m ∈ stepDir rules board piece dr dc, m.captures = [] := by
  intro m hm
  simp only [stepDir] at hm
  split_ifs at hm
  all_goals first
    | exact absurd hm (List.not_mem_nil m)
    | exact stepSlide_captures _ _ _ _ _ _ _ m hm
    | (rw [List.mem_singleton] at hm; subst hm; rfl)

lemma allStepMoves_captures {board : Board} {player : Player} {rules : VariantRules} :
    ∀ m ∈ allStepMoves board player rules, m.captures = [] := by
  intro m hm
  simp only [allStepMoves] at hm
  rw [List.mem_flatMap] at hm
  obtain ⟨r, hr, hm⟩ := hm
  rw [List.mem_flatMap] at hm
  obtain ⟨c, hc, hm⟩ := hm
  split at hm
  · split_ifs at hm with hp
    · simp only [getPieceMoves] at hm
      rw [List.mem_flatMap] at hm
      obtain ⟨dir, hdir, hm⟩ := hm
      exact stepDir_captures m hm
    · simp at hm
  · simp at hm

/-- C1: if any capture chain exists for the side to move, `getValidMoves`
    returns only capture moves (every returned move has a non-empty capture
    list); if no capture chain exists, it returns exactly the aggregated step
    moves. -/
theorem C1_forced_capture :
    ∀ (board : Board) (player : Player) (variant : CheckersVariant),
      (allJumpMoves board player (getVariantRules variant) ≠ [] →
        ∀ m ∈ getValidMoves board player variant, 0 < capLen m) ∧
      (allJumpMoves board player (getVariantRules variant) = [] →
        getValidMoves board player variant = allStepMoves board player (getVariantRules variant)) := by
  intro board player variant
  constructor
  · intro h m hm
    exact (allJumpMoves_inv m (getValidMoves_sub_jumps h m hm)).1
  · intro h
    exact getValidMoves_eq_steps h

/-- Witness for C1: a forced double capture (all returned moves capture) and
    the English initial position (no captures: result is exactly the step
    moves). -/
theorem C1_forced_capture_witness :
    ((getValidMoves doubleJumpBoard Player.RED CheckersVariant.ENGLISH).all
      (fun m => decide (0 < capLen m)) = true) ∧
    getValidMoves (createInitialBoard CheckersVariant.ENGLISH) Player.RED CheckersVariant.ENGLISH =
      allStepMoves (createInitialBoard CheckersVariant.ENGLISH) Player.RED
        (getVariantRules CheckersVariant.ENGLISH) := by
  constructor
  · rw [List.all_eq_true]
    intro m hm
    simpa using (C1_forced_capture doubleJumpBoard Player.RED CheckersVariant.ENGLISH).1
      (by decide) m hm
  · exact (C1_forced_capture (createInitialBoard CheckersVariant.ENGLISH) Player.RED
      CheckersVariant.ENGLISH).2 (by decide)

/-- C6: every move returned by `getValidMoves` has pairwise-distinct captured
    cells, for every board, side and variant. -/
theorem C6_no_cell_captured_twice :
    ∀ (board : Board) (player : Player) (variant : CheckersVariant) (m : Move),
      m ∈ getValidMoves board player variant → m.captures.Nodup := by
  intro board player variant m hm
  by_cases h : allJumpMoves board player (getVariantRules variant) = []
  · rw [getValidMoves_eq_steps h] at hm
    rw [allStepMoves_captures m hm]
    exact List.nodup_nil
  · exact (allJumpMoves_inv m (getValidMoves_sub_jumps h m hm)).2

/-- Witness for C6 on the forced double-capture fixture. -/
theorem C6_no_cell_captured_twice_witness :
    (getValidMoves doubleJumpBoard Player.RED CheckersVariant.ENGLISH).all
      (fun m => decide m.captures.Nodup) = true := by
  rw [List.all_eq_true]
  intro m hm
  simpa using C6_no_cell_captured_twice doubleJumpBoard Player.RED CheckersVariant.ENGLISH m hm

/-- Claim-side (C2): a chain "originates from a king" — the origin cell of the
    move holds a king on the pre-move board. -/
def originIsKingSpec (board : Board) (m : Move) : Bool :=
  (boardGet board m.fromPos.r m.fromPos.c).any (fun p => p.type == PieceType.KING)

/-- Claim-side (C2), step 1: if the rule-set requires king-capture priority
    and some chain originates from a king, discard chains originating from
    non-kings. -/
def kingPriorityFilterSpec (board : Board) (rules : VariantRules) (ms : List Move) : List Move :=
  if rules.kingCapturePriority ∧ ∃ m ∈ ms, originIsKingSpec board m then
    ms.filter (originIsKingSpec board)
  else ms

/-- Claim-side (C2), step 2: if majority capture is required, keep only chains
    tied for the maximum capture count among the remaining candidates. -/
def majorityFilterSpec (rules : VariantRules) (ms : List Move) : List Move :=
  if rules.majorityCaptureRequired then
    ms.filter (fun m => capLen m == listMaxNat (ms.map capLen))
  else ms

/-- Claim-side (C2), step 3: if quality capture is required, keep only chains
    tied for the maximum number of captured kings among the remaining
    candidates. -/
def qualityFilterSpec (board : Board) (rules : VariantRules) (ms : List Move) : List Move :=
  if rules.qualityCaptureRequired then
    ms.filter (fun m => getKingCount board m == listMaxNat (ms.map (getKingCount board)))
  else ms

lemma kingStage_eq (board : Board) (rules : VariantRules) (jm : List Move) :
    (if rules.kingCapturePriority then
      (if (jm.filter (fun m => match boardGet board m.fromPos.r m.fromPos.c with
            | some p => p.type == PieceType.KING
            | none => false)).length > 0 then
        jm.filter (fun m => match boardGet board m.fromPos.r m.fromPos.c with
            | some p => p.type == PieceType.KING
            | none => false)
      else jm)
    else jm) = kingPriorityFilterSpec board rules jm := by
  have hpred : (fun m => (match boardGet board m.fromPos.r m.fromPos.c with
      | some p => p.type == PieceType.KING
      | none => false)) = originIsKingSpec board := by
    funext m
    unfold originIsKingSpec
    cases boardGet board m.fromPos.r m.fromPos.c <;> rfl
  rw [hpred]
  unfold kingPriorityFilterSpec
  by_cases hk : rules.kingCapturePriority = true
  · by_cases he : ∃ m ∈ jm, originIsKingSpec board m = true
    · have hfil : jm.filter (originIsKingSpec board) ≠ [] := by
        rw [ne_eq, List.filter_eq_nil_iff]
        push_neg
        obtain ⟨m, hm, hp⟩ := he
        exact ⟨m, hm, by simp [hp]⟩
      rw [if_pos hk, if_pos (List.length_pos.mpr hfil), if_pos ⟨hk, he⟩]
    · have hfil : jm.filter (originIsKingSpec board) = [] := by
        rw [List.filter_eq_nil_iff]
        intro a ha hpa
        exact he ⟨a, ha, hpa⟩
      rw [if_pos hk, if_neg (by simp [hfil]), if_neg (fun hcon => he hcon.2)]
  · rw [if_neg hk, if_neg (fun hcon => hk hcon.1)]

/-- C2: whenever any capture chain exists, `getValidMoves` returns exactly the
    result of applying, in order, the king-priority filter, the majority
    filter, and the quality filter to the aggregated capture chains. -/
theorem C2_capture_filter_pipeline :
    ∀ (board : Board) (player : Player) (variant : CheckersVariant),
      allJumpMoves board player (getVariantRules variant) ≠ [] →
      getValidMoves board player variant =
        qualityFilterSpec board (getVariantRules variant)
          (majorityFilterSpec (getVariantRules variant)
            (kingPriorityFilterSpec board (getVariantRules variant)
              (allJumpMoves board player (getVariantRules variant)))) := by
  intro board player variant h
  simp only [getValidMoves]
  rw [if_pos (List.length_pos.mpr h)]
  rw [kingStage_eq board (getVariantRules variant)
    (allJumpMoves board player (getVariantRules variant))]
  rfl

/-- Witness for C2: the Suicide variant (majority capture required) on a board
    with a length-1 and a length-2 chain. -/
theorem C2_capture_filter_pipeline_witness :
    getValidMoves majorityBoard Player.RED CheckersVariant.SUICIDE =
      qualityFilterSpec majorityBoard (getVariantRules CheckersVariant.SUICIDE)
        (majorityFilterSpec (getVariantRules CheckersVariant.SUICIDE)
          (kingPriorityFilterSpec majorityBoard (getVariantRules CheckersVariant.SUICIDE)
            (allJumpMoves majorityBoard Player.RED (getVariantRules CheckersVariant.SUICIDE)))) :=
  C2_capture_filter_pipeline majorityBoard Player.RED CheckersVariant.SUICIDE (by decide)
def accAdd (a b : EvalAcc) : EvalAcc :=
  ⟨a.rMat + b.rMat, a.wMat + b.wMat, a.rCount + b.rCount, a.wCount + b.wCount⟩

/-- The contribution of one cell to the evaluation accumulators. -/
def cellAcc (board : Board) (size r c : Nat) : EvalAcc :=
  match boardGet board r c with
  | none => ⟨0, 0, 0, 0⟩
  | some p =>
    if p.player = Player.RED then ⟨pieceVal p r c size, 0, 1, 0⟩
    else ⟨0, pieceVal p r c size, 0, 1⟩

/-- Componentwise `Finset.range` sum of accumulators. -/
def sumAcc (n : Nat) (f : Nat → EvalAcc) : EvalAcc :=
  ⟨∑ i in Finset.range n, (f i).rMat, ∑ i in Finset.range n, (f i).wMat,
   ∑ i in Finset.range n, (f i).rCount, ∑ i in Finset.range n, (f i).wCount⟩

/-- Sides swapped in an accumulator. -/
def accSwap (a : EvalAcc) : EvalAcc := ⟨a.wMat, a.rMat, a.wCount, a.rCount⟩

lemma cellStep_eq_accAdd (board : Board) (size : Nat) (acc : EvalAcc) (r c : Nat) :
    cellStep board size acc r c = accAdd acc (cellAcc board size r c) := by
  unfold cellStep cellAcc accAdd
  split
  · cases acc
    simp
  · split_ifs <;> cases acc <;> simp

lemma foldl_accAdd (f : Nat → EvalAcc) : ∀ (n : Nat) (a : EvalAcc),
    (List.range n).foldl (fun acc i => accAdd acc (f i)) a = accAdd a (sumAcc n f) := by
  intro n
  induction n with
  | zero =>
    intro a
    cases a
    simp [sumAcc, accAdd]
  | succ n ih =>
    intro a
    rw [List.range_succ, List.foldl_append]
    simp only [List.foldl_cons, List.foldl_nil]
    rw [ih]
    unfold accAdd sumAcc
    simp only [EvalAcc.mk.injEq, Finset.sum_range_succ]
    refine ⟨by ring, by ring, by ring, by ring⟩

lemma evalAccum_eq_sum (board : Board) (size : Nat) :
    evalAccum board size =
      sumAcc size (fun r => sumAcc size (fun c => cellAcc board size r c)) := by
  unfold evalAccum
  have hfun : (fun (acc : EvalAcc) (r : Nat) =>
        (List.range size).foldl (fun acc2 c => cellStep board size acc2 r c) acc) =
      (fun acc r => accAdd acc (sumAcc size (fun c => cellAcc board size r c))) := by
    funext acc r
    have hstep : (fun (acc2 : EvalAcc) (c : Nat) => cellStep board size acc2 r c) =
        (fun acc2 c => accAdd acc2 (cellAcc board size r c)) := by
      funext acc2 c
      exact cellStep_eq_accAdd board size acc2 r c
    rw [hstep, foldl_accAdd]
  rw [hfun, foldl_accAdd]
  have : ∀ x : EvalAcc, accAdd ⟨0, 0, 0, 0⟩ x = x := by
    intro x
    cases x
    simp [accAdd]
  rw [this]

lemma boardGet_mirror (board : Board) (n : Nat) (r c : Nat) (hr : r < n) (hc : c < n) :
    boardGet (mirrorBoard n board) r c =
      (boardGet board ((n : Int) - 1 - r) ((n : Int) - 1 - c)).map swapPiece := by
  unfold mirrorBoard boardGet
  rw [if_pos (by constructor <;> positivity)]
  simp [List.getElem?_map, List.getElem?_range, hr, hc]

lemma pieceValPT_swap : ∀ (pl : Player) (t : PieceType) (r c : Fin 8),
    pieceValPT (if pl = Player.RED then Player.WHITE else Player.RED) t r.val c.val 8 =
      pieceValPT pl t (7 - r.val) (7 - c.val) 8 := by
  decide

lemma pieceVal_swap (p : Piece) (r c : Nat) (hr : r < 8) (hc : c < 8) :
    pieceVal (swapPiece p) r c 8 = pieceVal p (7 - r) (7 - c) 8 := by
  unfold pieceVal swapPiece
  simpa using pieceValPT_swap p.player p.type ⟨r, hr⟩ ⟨c, hc⟩

lemma cellAcc_mirror (board : Board) (r c : Nat) (hr : r < 8) (hc : c < 8) :
    cellAcc (mirrorBoard 8 board) 8 r c = accSwap (cellAcc board 8 (7 - r) (7 - c)) := by
  unfold cellAcc
  rw [boardGet_mirror board 8 r c hr hc]
  have hcr : ((8 : Nat) : Int) - 1 - (r : Int) = ((7 - r : Nat) : Int) := by omega
  have hcc : ((8 : Nat) : Int) - 1 - (c : Int) = ((7 - c : Nat) : Int) := by omega
  rw [hcr, hcc]
  cases hB : boardGet board ((7 - r : Nat) : Int) ((7 - c : Nat) : Int) with
  | none => rfl
  | some p =>
    simp only [Option.map_some']
    by_cases hp : p.player = Player.RED
    · have hsp : (swapPiece p).player = Player.WHITE := by
        simp [swapPiece, hp]
      simp [hp, hsp, accSwap, pieceVal_swap p r c hr hc]
    · have hsp : (swapPiece p).player = Player.RED := by
        cases hpl : p.player
        · exact absurd hpl hp
        · simp [swapPiece, hpl]
      simp [hp, hsp, accSwap, pieceVal_swap p r c hr hc]

lemma sum_range8_reflect (f : Nat → Int) :
    ∑ j in Finset.range 8, f (7 - j) = ∑ j in Finset.range 8, f j := by
  simpa using Finset.sum_range_reflect f 8

lemma double_sum_reflect (f g : Nat → Nat → Int)
    (h : ∀ r ∈ Finset.range 8, ∀ c ∈ Finset.range 8, f r c = g (7 - r) (7 - c)) :
    ∑ r in Finset.range 8, ∑ c in Finset.range 8, f r c =
      ∑ r in Finset.range 8, ∑ c in Finset.range 8, g r c := by
  calc ∑ r in Finset.range 8, ∑ c in Finset.range 8, f r c
      = ∑ r in Finset.range 8, ∑ c in Finset.range 8, g (7 - r) (7 - c) :=
        Finset.sum_congr rfl fun r hr => Finset.sum_congr rfl fun c hc => h r hr c hc
    _ = ∑ r in Finset.range 8, ∑ c in Finset.range 8, g r (7 - c) :=
        sum_range8_reflect (fun r => ∑ c in Finset.range 8, g r (7 - c))
    _ = ∑ r in Finset.range 8, ∑ c in Finset.range 8, g r c :=
        Finset.sum_congr rfl fun r hr => sum_range8_reflect (fun c => g r c)

lemma sumAcc_mirror (board : Board) :
    sumAcc 8 (fun r => sumAcc 8 (fun c => cellAcc (mirrorBoard 8 board) 8 r c)) =
      accSwap (sumAcc 8 (fun r => sumAcc 8 (fun c => cellAcc board 8 r c))) := by
  have hcell : ∀ r ∈ Finset.range 8, ∀ c ∈ Finset.range 8,
      cellAcc (mirrorBoard 8 board) 8 r c = accSwap (cellAcc board 8 (7 - r) (7 - c)) := by
    intro r hr c hc
    exact cellAcc_mirror board r c (Finset.mem_range.mp hr) (Finset.mem_range.mp hc)
  unfold sumAcc accSwap
  simp only [EvalAcc.mk.injEq]
  refine ⟨?_, ?_, ?_, ?_⟩
  all_goals exact double_sum_reflect _ _ fun r hr c hc => by rw [hcell r hr c hc]; rfl

/-- C5 amended: for every variant with an 8-wide board and no losing-goal
    objective, evaluating a board and its side-swapped point-reflected mirror
    yields exact negations. -/
theorem C5_eval_antisymmetry_size8 :
    ∀ (board : Board) (v : CheckersVariant),
      (getVariantRules v).isLosingGoal = false →
      (getVariantRules v).boardSize = 8 →
      evaluateBoard (mirrorBoard 8 board) v = - evaluateBoard board v := by
  intro board v hl hs
  simp only [evaluateBoard, hl, hs, Bool.false_eq_true, if_false]
  rw [evalAccum_eq_sum, evalAccum_eq_sum, sumAcc_mirror]
  simp only [accSwap]
  ring

/-- Witness for C5 on the English variant and the double-jump fixture. -/
theorem C5_eval_antisymmetry_size8_witness :
    evaluateBoard (mirrorBoard 8 doubleJumpBoard) CheckersVariant.ENGLISH =
      - evaluateBoard doubleJumpBoard CheckersVariant.ENGLISH :=
  C5_eval_antisymmetry_size8 doubleJumpBoard CheckersVariant.ENGLISH (by decide) (by decide)

lemma EInt.ble_refl (x : EInt) : EInt.ble x x = true := by
  cases x <;> simp [EInt.ble]

lemma EInt.ble_total (a b : EInt) : EInt.ble a b = true ∨ EInt.ble b a = true := by
  cases a <;> cases b <;> simp [EInt.ble] <;> try omega

lemma EInt.ble_emax_right (a x : EInt) : EInt.ble x (EInt.emax a x) = true := by
  unfold EInt.emax
  split_ifs with h
  · exact EInt.ble_refl x
  · rcases EInt.ble_total a x with h2 | h2
    · exact absurd h2 h
    · exact h2

lemma EInt.emin_ble_right (a x : EInt) : EInt.ble (EInt.emin a x) x = true := by
  unfold EInt.emin
  split_ifs with h
  · exact h
  · exact EInt.ble_refl x

lemma storeFlag_ne_exact_of_max {best alpha beta : EInt} (h : EInt.ble best alpha = true) :
    storeFlag best alpha beta ≠ TTFlag.EXACT := by
  unfold storeFlag
  rw [if_pos h]
  intro hcon
  exact TTFlag.noConfusion hcon

lemma storeFlag_ne_exact_of_min {best alpha beta : EInt} (h : EInt.ble beta best = true) :
    storeFlag best alpha beta ≠ TTFlag.EXACT := by
  unfold storeFlag
  by_cases h1 : EInt.ble best alpha = true
  · rw [if_pos h1]
    intro hcon
    exact TTFlag.noConfusion hcon
  · rw [if_neg h1, if_pos h]
    intro hcon
    exact TTFlag.noConfusion hcon

lemma abLoop_max_inv (v : CheckersVariant)
    (next : Board → EInt → EInt → Bool → Player → TT → EInt × TT)
    (board : Board) (player : Player) :
    ∀ (ms : List Move) (best alpha beta : EInt) (tt : TT), EInt.ble best alpha = true →
      EInt.ble (abLoop v next board true player ms best alpha beta tt).1
        (abLoop v next board true player ms best alpha beta tt).2.1 = true := by
  intro ms
  induction ms with
  | nil =>
    intro best alpha beta tt h
    simpa [abLoop] using h
  | cons m ms ih =>
    intro best alpha beta tt h
    simp only [abLoop]
    split_ifs
    all_goals first
      | contradiction
      | exact EInt.ble_emax_right _ _
      | exact ih _ _ _ _ (EInt.ble_emax_right _ _)

lemma abLoop_min_inv (v : CheckersVariant)
    (next : Board → EInt → EInt → Bool → Player → TT → EInt × TT)
    (board : Board) (player : Player) :
    ∀ (ms : List Move) (best alpha beta : EInt) (tt : TT), EInt.ble beta best = true →
      EInt.ble (abLoop v next board false player ms best alpha beta tt).2.2.1
        (abLoop v next board false player ms best alpha beta tt).1 = true := by
  intro ms
  induction ms with
  | nil =>
    intro best alpha beta tt h
    simpa [abLoop] using h
  | cons m ms ih =>
    intro best alpha beta tt h
    simp only [abLoop]
    split_ifs
    all_goals first
      | contradiction
      | exact EInt.emin_ble_right _ _
      | exact ih _ _ _ _ (EInt.emin_ble_right _ _)

lemma mem_ttSet {tt : TT} {key : String} {e : TTEntry} {kv : String × TTEntry}
    (h : kv ∈ ttSet tt key e) : kv ∈ tt ∨ kv.2 = e := by
  unfold ttSet at h
  split_ifs at h with hk
  · rw [List.mem_map] at h
    obtain ⟨kv0, hkv0, hmap⟩ := h
    by_cases hkey : (kv0.1 == key) = true
    · rw [if_pos hkey] at hmap
      right
      rw [← hmap]
    · rw [if_neg hkey] at hmap
      left
      rw [← hmap]
      exact hkv0
  · rw [List.mem_append] at h
    rcases h with h | h
    · exact Or.inl h
    · rw [List.mem_singleton] at h
      right
      rw [h]

lemma EInt.negInf_ble (x : EInt) : EInt.ble EInt.negInf x = true := by
  cases x <;> rfl

lemma EInt.ble_posInf (x : EInt) : EInt.ble x EInt.posInf = true := by
  cases x <;> rfl

lemma abLoop_noExact (v : CheckersVariant)
    (next : Board → EInt → EInt → Bool → Player → TT → EInt × TT)
    (board : Board) (isMax : Bool) (player : Player)
    (hnext : ∀ b a bb im p t, (∀ kv ∈ t, kv.2.flag ≠ TTFlag.EXACT) →
      ∀ kv ∈ (next b a bb im p t).2, kv.2.flag ≠ TTFlag.EXACT) :
    ∀ (ms : List Move) (best alpha beta : EInt) (tt : TT),
      (∀ kv ∈ tt, kv.2.flag ≠ TTFlag.EXACT) →
      ∀ kv ∈ (abLoop v next board isMax player ms best alpha beta tt).2.2.2,
        kv.2.flag ≠ TTFlag.EXACT := by
  intro ms
  induction ms with
  | nil =>
    intro best alpha beta tt h
    simpa [abLoop] using h
  | cons m ms ih =>
    intro best alpha beta tt h
    simp only [abLoop]
    split_ifs
    all_goals first
      | contradiction
      | exact hnext _ _ _ _ _ _ h
      | exact ih _ _ _ _ (hnext _ _ _ _ _ _ h)

lemma alphaBeta_noExact : ∀ (d : Nat) (v : CheckersVariant) (board : Board) (a b : EInt)
    (im : Bool) (p : Player) (tt : TT), (∀ kv ∈ tt, kv.2.flag ≠ TTFlag.EXACT) →
    ∀ kv ∈ (alphaBeta v d board a b im p tt).2, kv.2.flag ≠ TTFlag.EXACT := by
  intro d
  induction d with
  | zero =>
    intro v board a b im p tt h
    rw [alphaBeta]
    rcases hp : (ttProbe (ttGet tt (ttKey board im p)) 0 a b).1 with _ | sc
    · simp only [hp]
      split_ifs <;> simpa using h
    · simpa [hp] using h
  | succ d ih =>
    intro v board a b im p tt h
    rw [alphaBeta]
    rcases hp : (ttProbe (ttGet tt (ttKey board im p)) (d + 1) a b).1 with _ | sc
    · simp only [hp]
      have hloop := abLoop_noExact v (fun b2 a2 bb2 im2 p2 t2 => alphaBeta v d b2 a2 bb2 im2 p2 t2)
        board im p (fun b2 a2 bb2 im2 p2 t2 ht => ih v b2 a2 bb2 im2 p2 t2 ht)
      split_ifs with hm him hs
      · simpa using h
      · subst him
        intro kv hkv
        rcases mem_ttSet hkv with hin | heq
        · exact hloop _ _ _ _ _ h kv hin
        · rw [heq]
          exact storeFlag_ne_exact_of_max
            (abLoop_max_inv v _ board p _ EInt.negInf _ _ tt (EInt.negInf_ble _))
      · subst him
        exact hloop _ _ _ _ _ h
      · have him2 : im = false := by
          cases im
          · rfl
          · exact absurd rfl him
        subst him2
        intro kv hkv
        rcases mem_ttSet hkv with hin | heq
        · exact hloop _ _ _ _ _ h kv hin
        · rw [heq]
          exact storeFlag_ne_exact_of_min
            (abLoop_min_inv v _ board p _ EInt.posInf _ _ tt (EInt.ble_posInf _))
      · have him2 : im = false := by
          cases im
          · rfl
          · exact absurd rfl him
        subst him2
        exact hloop _ _ _ _ _ h
    · simpa [hp] using h

/-- C3 amended: the bound tag stored by `alphaBeta` is computed from the
    loop-final alpha/beta (which the loop has already moved to the final
    value), not the entry window; consequently a table holding no `EXACT`
    entries still holds none after any `alphaBeta` call — the engine never
    stores an exact-tagged entry. -/
theorem C3_no_exact_store :
    ∀ (v : CheckersVariant) (d : Nat) (board : Board) (a b : EInt) (im : Bool) (p : Player)
      (tt : TT), (∀ kv ∈ tt, kv.2.flag ≠ TTFlag.EXACT) →
      ∀ kv ∈ (alphaBeta v d board a b im p tt).2, kv.2.flag ≠ TTFlag.EXACT :=
  fun v d board a b im p tt h => alphaBeta_noExact d v board a b im p tt h

/-- Witness for C3's amended claim on the search fixture, from the empty
    table. -/
theorem C3_no_exact_store_witness :
    ((alphaBeta CheckersVariant.ENGLISH 1 abFixtureBoard EInt.negInf EInt.posInf true
      Player.RED []).2).all (fun kv => decide (kv.2.flag ≠ TTFlag.EXACT)) = true := by
  rw [List.all_eq_true]
  intro kv hkv
  simpa using C3_no_exact_store CheckersVariant.ENGLISH 1 abFixtureBoard EInt.negInf EInt.posInf
    true Player.RED [] (by simp) kv hkv

/-- The opponent of a side (claim C10's "true opponent of the side that just
    moved"). -/
def otherPlayer : Player → Player
  | .RED => .WHITE
  | .WHITE => .RED

/-- Claim-side (C10) quiescence: the maximizing flag is not a parameter but is
    derived as "side to move is RED", and the recursion hands the true
    opponent onward instead of a hardcoded side. -/
def quiesceGoInv (v : CheckersVariant) : Nat → Board → EInt → EInt → Player → EInt
  | 0, board, _, _, _ => EInt.fin (evaluateBoard board v)
  | fuel + 1, board, alpha, beta, player =>
    let standPat := EInt.fin (evaluateBoard board v)
    if player = Player.RED then
      if EInt.ble beta standPat then beta
      else
        let alpha1 := if EInt.blt alpha standPat then standPat else alpha
        let moves := (getValidMoves board player v).filter (fun m => capLen m > 0)
        quiesceLoopMax v (fun b a bb => quiesceGoInv v fuel b a bb (otherPlayer player))
          board beta moves alpha1
    else
      if EInt.ble standPat alpha then alpha
      else
        let beta1 := if EInt.blt standPat beta then standPat else beta
        let moves := (getValidMoves board player v).filter (fun m => capLen m > 0)
        quiesceLoopMin v (fun b a bb => quiesceGoInv v fuel b a bb (otherPlayer player))
          board alpha moves beta1

/-- Claim-side (C10) `quiesce` wrapper. -/
def quiesceInv (board : Board) (alpha beta : EInt) (player : Player) (v : CheckersVariant)
    (depth : Nat) : EInt :=
  quiesceGoInv v (5 - depth) board alpha beta player

/-- Claim-side (C10) `alphaBeta`: the maximizing flag everywhere replaced by
    "side to move is RED". -/
def alphaBetaInv (v : CheckersVariant) (depth : Nat) (board : Board) (alpha0 beta0 : EInt)
    (player : Player) (tt : TT) : EInt × TT :=
  let key := ttKey board (player == Player.RED) player
  let probed := ttProbe (ttGet tt key) depth alpha0 beta0
  match probed.1 with
  | some sc => (sc, tt)
  | none =>
    let alpha := probed.2.1
    let beta := probed.2.2
    let moves := getValidMoves board player v
    if moves.length = 0 then (quiesceInv board alpha beta player v 0, tt)
    else
      match depth with
      | 0 => (quiesceInv board alpha beta player v 0, tt)
      | d + 1 =>
        let ordered := sortByCapsDesc moves
        let init : EInt := if (player == Player.RED) = true then EInt.negInf else EInt.posInf
        let r := abLoop v (fun b a bb im p t => alphaBetaInv v d b a bb p t)
          board (player == Player.RED) player ordered init alpha beta tt
        let tt1 := r.2.2.2
        let tt2 :=
          if tt1.length < ttStoreThreshold then
            ttSet tt1 key { depth := d + 1, score := r.1, flag := storeFlag r.1 r.2.1 r.2.2.1 }
          else tt1
        (r.1, tt2)

/-- Claim-side (C10) `getBestMove` loop: the child call receives the true
    opponent of the side to move and no separate maximizing flag. -/
def gbmLoopInv (v : CheckersVariant) (boardv : Board) (turn : Player) (d : Nat) :
    List Move → Move → EInt → TT → Move × TT
  | [], bestMove, _, tt => (bestMove, tt)
  | m :: ms, bestMove, bestScore, tt =>
    let res := alphaBetaInv v d (applyMove boardv m v) EInt.negInf EInt.posInf
      (otherPlayer turn) tt
    if (turn = Player.RED ∧ EInt.blt bestScore res.1) ∨
        (turn = Player.WHITE ∧ EInt.blt res.1 bestScore) then
      gbmLoopInv v boardv turn d ms m res.1 res.2
    else
      gbmLoopInv v boardv turn d ms bestMove bestScore res.2

/-- Claim-side (C10) `getBestMove`. -/
def getBestMoveInv (gs : GameState) (tt : TT) : Option Move × TT :=
  let tt0 : TT := if tt.length > ttClearThreshold then [] else tt
  let depth := depthOfLevel gs.aiLevel
  let moves := getValidMoves gs.board gs.turn gs.variant
  match moves with
  | [] => (none, tt0)
  | m0 :: _ =>
    let r := gbmLoopInv gs.variant gs.board gs.turn (depth - 1) moves m0
      (if gs.turn = Player.RED then EInt.negInf else EInt.posInf) tt0
    (some r.1, r.2)

lemma quiesceGo_inv_eq : ∀ (fuel : Nat) (v : CheckersVariant) (board : Board) (a b : EInt)
    (p : Player), quiesceGo v fuel board a b (p == Player.RED) p = quiesceGoInv v fuel board a b p := by
  intro fuel
  induction fuel with
  | zero =>
    intro v board a b p
    rfl
  | succ fuel ih =>
    intro v board a b p
    cases p
    · have hn : (fun (b2 : Board) (a2 bb2 : EInt) =>
          quiesceGo v fuel b2 a2 bb2 false Player.WHITE)
          = (fun b2 a2 bb2 => quiesceGoInv v fuel b2 a2 bb2 Player.WHITE) := by
        funext b2 a2 bb2
        exact ih v b2 a2 bb2 Player.WHITE
      simp only [quiesceGo, quiesceGoInv]
      simp only [show (Player.RED == Player.RED) = true from rfl, if_true,
        show (Player.RED = Player.RED) = True from by simp, otherPlayer]
      rw [hn]
    · have hn : (fun (b2 : Board) (a2 bb2 : EInt) =>
          quiesceGo v fuel b2 a2 bb2 true Player.RED)
          = (fun b2 a2 bb2 => quiesceGoInv v fuel b2 a2 bb2 Player.RED) := by
        funext b2 a2 bb2
        exact ih v b2 a2 bb2 Player.RED
      simp only [quiesceGo, quiesceGoInv]
      simp only [show (Player.WHITE == Player.RED) = false from rfl, Bool.false_eq_true,
        show (Player.WHITE = Player.RED) = False from by simp, if_false, otherPlayer]
      rw [hn]

lemma abLoop_congr_next (v : CheckersVariant)
    (next nextb : Board → EInt → EInt → Bool → Player → TT → EInt × TT)
    (board : Board) (isMax : Bool) (player : Player)
    (h : ∀ b2 a2 bb2 t2, next b2 a2 bb2 (!isMax)
        (if player = Player.RED then Player.WHITE else Player.RED) t2
      = nextb b2 a2 bb2 (!isMax) (if player = Player.RED then Player.WHITE else Player.RED) t2) :
    ∀ (ms : List Move) (best alpha beta : EInt) (tt : TT),
      abLoop v next board isMax player ms best alpha beta tt
        = abLoop v nextb board isMax player ms best alpha beta tt := by
  intro ms
  induction ms with
  | nil =>
    intro best alpha beta tt
    rfl
  | cons m ms ih =>
    intro best alpha beta tt
    simp only [abLoop]
    rw [h]
    simp only [ih]

lemma alphaBeta_inv_eq : ∀ (d : Nat) (v : CheckersVariant) (board : Board) (a b : EInt)
    (p : Player) (tt : TT),
    alphaBeta v d board a b (p == Player.RED) p tt = alphaBetaInv v d board a b p tt := by
  intro d
  induction d with
  | zero =>
    intro v board a b p tt
    rw [alphaBeta, alphaBetaInv]
    rcases hp : (ttProbe (ttGet tt (ttKey board (p == Player.RED) p)) 0 a b).1 with _ | sc
    · simp only [hp, quiesce, quiesceInv, quiesceGo_inv_eq]
    · simp only [hp]
  | succ d ih =>
    intro v board a b p tt
    rw [alphaBeta, alphaBetaInv]
    rcases hp : (ttProbe (ttGet tt (ttKey board (p == Player.RED) p)) (d + 1) a b).1 with _ | sc
    · simp only [hp, quiesce, quiesceInv, quiesceGo_inv_eq]
      have hloop := abLoop_congr_next v
        (fun b2 a2 bb2 im2 p2 t2 => alphaBeta v d b2 a2 bb2 im2 p2 t2)
        (fun b2 a2 bb2 im2 p2 t2 => alphaBetaInv v d b2 a2 bb2 p2 t2)
        board (p == Player.RED) p
        (by
          intro b2 a2 bb2 t2
          cases p
          · exact ih v b2 a2 bb2 Player.WHITE t2
          · exact ih v b2 a2 bb2 Player.RED t2)
      simp only [hloop]
    · simp only [hp]

lemma gbmLoop_inv_eq (v : CheckersVariant) (boardv : Board) (turn : Player) (d : Nat) :
    ∀ (ms : List Move) (m0 : Move) (s0 : EInt) (tt : TT),
      gbmLoop v boardv turn d ms m0 s0 tt = gbmLoopInv v boardv turn d ms m0 s0 tt := by
  intro ms
  induction ms with
  | nil =>
    intro m0 s0 tt
    rfl
  | cons m ms ih =>
    intro m0 s0 tt
    simp only [gbmLoop, gbmLoopInv]
    have hab : alphaBeta v d (applyMove boardv m v) EInt.negInf EInt.posInf (!(turn == Player.RED))
        (if turn = Player.RED then Player.WHITE else Player.RED) tt
        = alphaBetaInv v d (applyMove boardv m v) EInt.negInf EInt.posInf (otherPlayer turn) tt := by
      cases turn
      · exact alphaBeta_inv_eq d v (applyMove boardv m v) EInt.negInf EInt.posInf Player.WHITE tt
      · exact alphaBeta_inv_eq d v (applyMove boardv m v) EInt.negInf EInt.posInf Player.RED tt
    rw [hab]
    simp only [ih]

/-- C10: RED is the fixed maximizing side.  The engine's `quiesce`,
    `alphaBeta` and `getBestMove`, with the maximizing flag instantiated as
    "side to move is RED" exactly as `getBestMove` sets it up, coincide with
    the claim-side variants that derive the flag from the side to move and
    pass the true opponent at every recursive call (including quiescence's
    hardcoded WHITE-after-max / RED-after-min alternation). -/
theorem C10_red_is_fixed_maximizer :
    (∀ (v : CheckersVariant) (fuel : Nat) (board : Board) (a b : EInt) (p : Player),
      quiesceGo v fuel board a b (p == Player.RED) p = quiesceGoInv v fuel board a b p) ∧
    (∀ (v : CheckersVariant) (d : Nat) (board : Board) (a b : EInt) (p : Player) (tt : TT),
      alphaBeta v d board a b (p == Player.RED) p tt = alphaBetaInv v d board a b p tt) ∧
    (∀ (gs : GameState) (tt : TT), getBestMove gs tt = getBestMoveInv gs tt) := by
  refine ⟨fun v fuel board a b p => quiesceGo_inv_eq fuel v board a b p,
    fun v d board a b p tt => alphaBeta_inv_eq d v board a b p tt, ?_⟩
  intro gs tt
  simp only [getBestMove, getBestMoveInv]
  rcases hmv : getValidMoves gs.board gs.turn gs.variant with _ | ⟨m0, ms⟩ <;>
    simp only [hmv]
  rw [gbmLoop_inv_eq]
